import Mathlib

/-!
Verification of the Sudoku core of `app.py`: the grid validator (`is_valid`),
the backtracking solver (`solve_sudoku`, `find_empty`), the hint engine
(`get_hint`), and the extraction pipeline's decision logic (plausibility
gate, vision-model reply parsing, fallback orchestration).

The Python board (a mutable list of nine lists of nine ints, `0` = empty) is
embedded as `Grid := List (List Nat)`.  In-place mutation is embedded by
explicit state passing: `solve_sudoku` returns the pair of the boolean result
and the final state of the board.  The recursion of the Python solver is
embedded with an explicit fuel parameter that decreases structurally; fuel
sufficiency (`numEmpty b + 1` always suffices) is proved below, which is the
termination argument of the source.
-/

set_option maxHeartbeats 4000000
set_option maxRecDepth 10000

/-- A Python board: a list of rows of naturals, `0` denoting an empty cell. -/
abbrev Grid := List (List Nat)

/-- `board[r][c]`: all reads performed by the source are in range on 9×9
boards, so the out-of-range default `0` is never exercised under `WF`. -/
def getCell (b : Grid) (r c : Nat) : Nat := (b.getD r []).getD c 0

/-- `board[r][c] = v`: functional update of one cell. -/
def setCell (b : Grid) (r c v : Nat) : Grid := b.set r ((b.getD r []).set c v)

/-- The board is a well-formed 9×9 matrix (the data-model invariant). -/
def WF (b : Grid) : Prop := b.length = 9 ∧ ∀ row ∈ b, row.length = 9

instance (b : Grid) : Decidable (WF b) := by unfold WF; infer_instance

/-- `is_valid(board, row, col, num)` from `app.py` lines 254–271: `num` may be
placed at `(row, col)` iff it does not already occur in the row, the column,
or the 3×3 box with origin `(3*(row/3), 3*(col/3))`.  Pure (no side effect
on the board). -/
def is_valid (board : Grid) (row col num : Nat) : Bool :=
  ((List.range 9).all fun x => getCell board row x != num) &&
  ((List.range 9).all fun x => getCell board x col != num) &&
  (let start_row := 3 * (row / 3)
   let start_col := 3 * (col / 3)
   (List.range 3).all fun i =>
     (List.range 3).all fun j =>
       getCell board (i + start_row) (j + start_col) != num)

/-- The 81 cell coordinates in the row-major order of the nested loops of
`find_empty` (`for i in range(9): for j in range(9)`). -/
def cellList : List (Nat × Nat) := (List.range 81).map fun k => (k / 9, k % 9)

/-- Scan a list of coordinates for the first cell holding `0`. -/
def findEmptyAux (b : Grid) : List (Nat × Nat) → Option (Nat × Nat)
  | [] => none
  | p :: rest => if getCell b p.1 p.2 = 0 then some p else findEmptyAux b rest

/-- `find_empty(board)` from `app.py` lines 291–296: the first cell equal to
`0` in row-major order, or `None`. -/
def find_empty (b : Grid) : Option (Nat × Nat) := findEmptyAux b cellList

/-- The number of empty cells of the board; this is the measure that bounds
the recursion depth of the Python solver (not a function of the source). -/
def numEmpty (b : Grid) : Nat :=
  (cellList.filter fun p => getCell b p.1 p.2 == 0).length

/-- One level of the `for num in range(1, 10)` loop of `solve_sudoku`
(lines 280–288), parameterised by the recursive solver of the next level:
place a valid `num`, recurse; on a failed recursion the source resets the
cell to `0` (here: continue from the returned state with the cell reset) and
tries the next value; when the loop completes, return `False` with the board
as it stands. -/
def tryNums (solve : Grid → Option (Bool × Grid)) (board : Grid)
    (row col : Nat) : List Nat → Option (Bool × Grid)
  | [] => some (false, board)
  | num :: rest =>
    if is_valid board row col num then
      match solve (setCell board row col num) with
      | none => none
      | some (true, b') => some (true, b')
      | some (false, b') => tryNums solve (setCell b' row col 0) row col rest
    else
      tryNums solve board row col rest

/-- `solve_sudoku(board)` from `app.py` lines 273–289 with an explicit fuel
parameter bounding the recursion depth (`none` = fuel exhausted, which is
proved unreachable for fuel `numEmpty b + 1` below): if no cell is empty,
return `True`; otherwise run the value loop at the first empty cell. -/
def solveF : Nat → Grid → Option (Bool × Grid)
  | 0, _ => none
  | fuel + 1, board =>
    match find_empty board with
    | none => some (true, board)
    | some (row, col) =>
      tryNums (solveF fuel) board row col [1, 2, 3, 4, 5, 6, 7, 8, 9]

/-- `solve_sudoku(board)`: the fueled solver run with sufficient fuel.  The
result is the returned boolean together with the final state of the board. -/
def solve_sudoku (board : Grid) : Bool × Grid :=
  (solveF (numEmpty board + 1) board).getD (false, board)

/-- The `for num in range(1, 10)` loop of `get_hint` (`app.py` lines
310–322): for each valid `num`, place it in the working copy, solve a scratch
copy seeded from it, and if that succeeds return the hint and the working
copy; otherwise reset the cell and continue. -/
def hintNums (board_copy : Grid) (row col : Nat) :
    List Nat → Option (Nat × Nat × Nat) × Grid
  | [] => (none, board_copy)
  | num :: rest =>
    if is_valid board_copy row col num then
      let placed := setCell board_copy row col num
      if (solve_sudoku placed).1 then
        (some (row, col, num), placed)
      else
        hintNums (setCell placed row col 0) row col rest
    else
      hintNums board_copy row col rest

/-- `get_hint(board)` from `app.py` lines 298–322: work on a copy, find the
first empty cell, and run the value loop there; on a full board return
`None` with the untouched copy. -/
def get_hint (board : Grid) : Option (Nat × Nat × Nat) × Grid :=
  match find_empty board with
  | none => (none, board)
  | some (row, col) => hintNums board row col [1, 2, 3, 4, 5, 6, 7, 8, 9]

/-- The sample board of `mock_extract_sudoku` (`app.py` lines 239–251), which
is also the board of the spec's end-to-end example. -/
def mock_extract_sudoku : Grid :=
  [[5, 3, 0, 0, 7, 0, 0, 0, 0],
   [6, 0, 0, 1, 9, 5, 0, 0, 0],
   [0, 9, 8, 0, 0, 0, 0, 6, 0],
   [8, 0, 0, 0, 6, 0, 0, 0, 3],
   [4, 0, 0, 8, 0, 3, 0, 0, 1],
   [7, 0, 0, 0, 2, 0, 0, 0, 6],
   [0, 6, 0, 0, 0, 0, 2, 8, 0],
   [0, 0, 0, 4, 1, 9, 0, 0, 5],
   [0, 0, 0, 0, 8, 0, 0, 7, 9]]

example : find_empty mock_extract_sudoku = some (0, 2) := by decide

example : numEmpty mock_extract_sudoku = 51 := by decide

example : is_valid mock_extract_sudoku 0 2 4 = true := by decide

example : is_valid mock_extract_sudoku 0 2 3 = false := by decide

example : solveF 0 [] = none := by decide

/-! ### Spec-side predicates

`sees` is the Sudoku visibility relation: two coordinates share a row, a
column, or a 3×3 box.  A grid is consistent when no two distinct mutually
visible cells hold the same non-zero value; a solved grid is a well-formed
full grid (all values in 1..9) that is consistent; `extendsTo b s` says `s`
agrees with every clue (non-zero cell) of `b`; `solutionOf b s` says `s` is
a valid completion of `b`. -/

def sees (p q : Nat × Nat) : Prop :=
  p.1 = q.1 ∨ p.2 = q.2 ∨ (p.1 / 3 = q.1 / 3 ∧ p.2 / 3 = q.2 / 3)

instance (p q : Nat × Nat) : Decidable (sees p q) := by unfold sees; infer_instance

def consistentGrid (b : Grid) : Prop :=
  ∀ r1 < 9, ∀ c1 < 9, ∀ r2 < 9, ∀ c2 < 9,
    (r1, c1) ≠ (r2, c2) → sees (r1, c1) (r2, c2) →
    getCell b r1 c1 ≠ 0 → getCell b r1 c1 ≠ getCell b r2 c2

instance (b : Grid) : Decidable (consistentGrid b) := by
  unfold consistentGrid
  refine @Nat.decidableBallLT 9 _ ?_
  intro r1 _
  refine @Nat.decidableBallLT 9 _ ?_
  intro c1 _
  refine @Nat.decidableBallLT 9 _ ?_
  intro r2 _
  refine @Nat.decidableBallLT 9 _ ?_
  intro c2 _
  infer_instance

def fullGrid (b : Grid) : Prop :=
  ∀ r < 9, ∀ c < 9, 1 ≤ getCell b r c ∧ getCell b r c ≤ 9

instance (b : Grid) : Decidable (fullGrid b) := by unfold fullGrid; infer_instance

def boundedVals (b : Grid) : Prop := ∀ r < 9, ∀ c < 9, getCell b r c ≤ 9

instance (b : Grid) : Decidable (boundedVals b) := by
  unfold boundedVals; infer_instance

def solvedGrid (b : Grid) : Prop := WF b ∧ fullGrid b ∧ consistentGrid b

instance (b : Grid) : Decidable (solvedGrid b) := by unfold solvedGrid; infer_instance

def extendsTo (b s : Grid) : Prop :=
  ∀ r < 9, ∀ c < 9, getCell b r c ≠ 0 → getCell s r c = getCell b r c

instance (b s : Grid) : Decidable (extendsTo b s) := by
  unfold extendsTo; infer_instance

def solutionOf (b s : Grid) : Prop := solvedGrid s ∧ extendsTo b s

instance (b s : Grid) : Decidable (solutionOf b s) := by
  unfold solutionOf; infer_instance

theorem sees_symm {p q : Nat × Nat} (h : sees p q) : sees q p := by
  unfold sees at *
  rcases h with h | h | ⟨h1, h2⟩
  · exact Or.inl h.symm
  · exact Or.inr (Or.inl h.symm)
  · exact Or.inr (Or.inr ⟨h1.symm, h2.symm⟩)

/-! ### List lemmas for `getD` / `set` -/

theorem set_oob {α : Type} : ∀ (l : List α) (i : Nat) (v : α),
    l.length ≤ i → l.set i v = l := by
  intro l
  induction l with
  | nil => intro i v _; rfl
  | cons a t ih =>
    intro i v h
    cases i with
    | zero => simp at h
    | succ n => simp only [List.set]; rw [ih n v (by simpa using h)]

theorem getD_oob {α : Type} : ∀ (l : List α) (i : Nat) (d : α),
    l.length ≤ i → l.getD i d = d := by
  intro l
  induction l with
  | nil => intro i d _; rfl
  | cons a t ih =>
    intro i d h
    cases i with
    | zero => simp at h
    | succ n => simpa using ih n d (by simpa using h)

theorem getD_set_self {α : Type} : ∀ (l : List α) (i : Nat) (v d : α),
    i < l.length → (l.set i v).getD i d = v := by
  intro l
  induction l with
  | nil => intro i v d h; simp at h
  | cons a t ih =>
    intro i v d h
    cases i with
    | zero => rfl
    | succ n => simpa using ih n v d (by simpa using h)

theorem getD_set_ne {α : Type} : ∀ (l : List α) (i j : Nat) (v d : α),
    i ≠ j → (l.set i v).getD j d = l.getD j d := by
  intro l
  induction l with
  | nil => intro i j v d _; rfl
  | cons a t ih =>
    intro i j v d h
    cases i with
    | zero =>
      cases j with
      | zero => exact absurd rfl h
      | succ m => rfl
    | succ n =>
      cases j with
      | zero => rfl
      | succ m => simpa using ih n m v d (by omega)

theorem set_getD_eq {α : Type} : ∀ (l : List α) (i : Nat) (v d : α),
    l.getD i d = v → l.set i v = l := by
  intro l
  induction l with
  | nil => intro i v d _; rfl
  | cons a t ih =>
    intro i v d h
    cases i with
    | zero => simp only [List.getD_cons_zero] at h; simp [h]
    | succ n =>
      simp only [List.getD_cons_succ] at h
      simp only [List.set]
      rw [ih n v d h]

/-! ### Cell access lemmas -/

theorem getCell_setCell_self {b : Grid} {r c : Nat} (v : Nat)
    (hr : r < b.length) (hc : c < (b.getD r []).length) :
    getCell (setCell b r c v) r c = v := by
  unfold getCell setCell
  rw [getD_set_self _ _ _ _ (by simpa using hr)]
  exact getD_set_self _ _ _ _ (by simpa using hc)

theorem getCell_setCell_wf {b : Grid} {r c : Nat} (v : Nat) (hwf : WF b)
    (hr : r < 9) (hc : c < 9) : getCell (setCell b r c v) r c = v := by
  have hr' : r < b.length := by rw [hwf.1]; exact hr
  have hrow : b.getD r [] = b[r] := List.getD_eq_getElem b [] hr'
  have hlen : (b.getD r []).length = 9 := by
    rw [hrow]; exact hwf.2 _ (List.getElem_mem hr')
  exact getCell_setCell_self v hr' (by rw [hlen]; exact hc)

theorem getCell_setCell_ne {b : Grid} {r c : Nat} (v : Nat) {r' c' : Nat}
    (h : (r', c') ≠ (r, c)) :
    getCell (setCell b r c v) r' c' = getCell b r' c' := by
  unfold getCell setCell
  by_cases hrr : r' = r
  · subst hrr
    have hcc : c' ≠ c := by
      intro hc; exact h (by rw [hc])
    by_cases hr : r' < b.length
    · rw [getD_set_self _ _ _ _ (by simpa using hr)]
      exact getD_set_ne _ _ _ _ _ (fun hc => hcc hc.symm)
    · rw [set_oob _ _ _ (by omega)]
  · rw [getD_set_ne _ _ _ _ _ (fun hr => hrr hr.symm)]

theorem WF_setCell {b : Grid} (r c v : Nat) (hwf : WF b) :
    WF (setCell b r c v) := by
  unfold setCell
  by_cases hr : r < b.length
  · constructor
    · rw [List.length_set]; exact hwf.1
    · intro row hrow
      rcases List.mem_or_eq_of_mem_set hrow with hmem | heq
      · exact hwf.2 _ hmem
      · rw [heq, List.length_set]
        rw [List.getD_eq_getElem b [] hr]
        exact hwf.2 _ (List.getElem_mem hr)
  · rw [set_oob _ _ _ (by omega)]; exact hwf

theorem setCell_zero_self {b : Grid} {r c : Nat} (h0 : getCell b r c = 0) :
    setCell b r c 0 = b := by
  unfold setCell
  unfold getCell at h0
  rw [set_getD_eq _ _ _ _ h0]
  exact set_getD_eq _ _ _ _ rfl

theorem setCell_restore {b : Grid} {r c : Nat} (v : Nat)
    (h0 : getCell b r c = 0) : setCell (setCell b r c v) r c 0 = b := by
  unfold setCell getCell at *
  by_cases hr : r < b.length
  · rw [getD_set_self _ _ _ _ (by simpa using hr)]
    rw [List.set_set, List.set_set]
    rw [set_getD_eq _ _ _ _ h0]
    exact set_getD_eq _ _ _ _ rfl
  · rw [set_oob b _ _ (by omega), set_oob b _ _ (by omega)]

/-! ### `cellList`, `numEmpty` and `find_empty` lemmas -/

theorem cellList_nodup : cellList.Nodup := by
  unfold cellList
  apply List.Nodup.map _ (List.nodup_range 81)
  intro a b h
  rw [Prod.mk.injEq] at h
  omega

theorem mem_cellList {r c : Nat} : (r, c) ∈ cellList ↔ r < 9 ∧ c < 9 := by
  unfold cellList
  simp only [List.mem_map, List.mem_range, Prod.mk.injEq]
  constructor
  · rintro ⟨k, hk, h1, h2⟩
    omega
  · rintro ⟨hr, hc⟩
    exact ⟨9 * r + c, by omega, by omega, by omega⟩

theorem cellList_length : cellList.length = 81 := by decide

theorem numEmpty_le (b : Grid) : numEmpty b ≤ 81 := by
  unfold numEmpty
  calc (cellList.filter _).length ≤ cellList.length := List.length_filter_le _ _
    _ = 81 := cellList_length

theorem length_filter_flip {α : Type} (f g : α → Bool) :
    ∀ (l : List α) (a : α), l.Nodup → a ∈ l → f a = true → g a = false →
    (∀ x ∈ l, x ≠ a → f x = g x) →
    (l.filter g).length + 1 = (l.filter f).length := by
  intro l
  induction l with
  | nil => intro a _ ha; exact absurd ha (List.not_mem_nil a)
  | cons x t ih =>
    intro a hnd ha hf hg hfg
    have hxt : x ∉ t := (List.nodup_cons.mp hnd).1
    have hndt : t.Nodup := (List.nodup_cons.mp hnd).2
    rcases List.mem_cons.mp ha with heq | hat
    · subst heq
    -- the head is the flipped element; on the tail the predicates agree
      have ht : t.filter g = t.filter f := by
        apply List.filter_congr
        intro y hy
        exact (hfg y (List.mem_cons_of_mem _ hy) (fun e => hxt (e ▸ hy))).symm
      rw [List.filter_cons, List.filter_cons, hf, hg]
      simp [ht]
    · have hxa : x ≠ a := fun e => hxt (e ▸ hat)
      have hfx : f x = g x := hfg x (List.mem_cons_self x t) hxa
      have hrec := ih a hndt hat hf hg
        (fun y hy hya => hfg y (List.mem_cons_of_mem _ hy) hya)
      rw [List.filter_cons, List.filter_cons, ← hfx]
      cases hfxv : f x with
      | false => simpa [hfxv] using hrec
      | true => simp only [hfxv, if_true, List.length_cons]; omega

theorem numEmpty_setCell {b : Grid} {r c v : Nat} (hwf : WF b) (hr : r < 9)
    (hc : c < 9) (h0 : getCell b r c = 0) (hv : v ≠ 0) :
    numEmpty (setCell b r c v) + 1 = numEmpty b := by
  unfold numEmpty
  apply length_filter_flip _ _ cellList (r, c) cellList_nodup
    (mem_cellList.mpr ⟨hr, hc⟩)
  · simp [h0]
  · simp [getCell_setCell_wf v hwf hr hc, hv]
  · intro x hx hxa
    have : getCell (setCell b r c v) x.1 x.2 = getCell b x.1 x.2 := by
      apply getCell_setCell_ne
      cases x
      simpa using hxa
    simp [this]

theorem numEmpty_pos {b : Grid} {r c : Nat} (hr : r < 9) (hc : c < 9)
    (h0 : getCell b r c = 0) : 1 ≤ numEmpty b := by
  unfold numEmpty
  have hm : (r, c) ∈ cellList.filter fun p => getCell b p.1 p.2 == 0 :=
    List.mem_filter.mpr ⟨mem_cellList.mpr ⟨hr, hc⟩, by simp [h0]⟩
  exact List.length_pos.mpr (fun he => by simp [he] at hm)

theorem findEmptyAux_eq_none {b : Grid} :
    ∀ l, findEmptyAux b l = none ↔ ∀ p ∈ l, getCell b p.1 p.2 ≠ 0 := by
  intro l
  induction l with
  | nil => simp [findEmptyAux]
  | cons p t ih =>
    simp only [findEmptyAux]
    by_cases h : getCell b p.1 p.2 = 0
    · simp [h]
    · simp [h, ih]

theorem findEmptyAux_eq_some {b : Grid} :
    ∀ l p, findEmptyAux b l = some p → p ∈ l ∧ getCell b p.1 p.2 = 0 := by
  intro l
  induction l with
  | nil => intro p h; simp [findEmptyAux] at h
  | cons x t ih =>
    intro p h
    simp only [findEmptyAux] at h
    by_cases hx : getCell b x.1 x.2 = 0
    · rw [if_pos hx] at h
      injection h with h
      subst h
      exact ⟨List.mem_cons_self _ _, hx⟩
    · rw [if_neg hx] at h
      obtain ⟨hm, h0⟩ := ih p h
      exact ⟨List.mem_cons_of_mem _ hm, h0⟩

theorem findEmptyAux_split {b : Grid} :
    ∀ l p, findEmptyAux b l = some p →
    ∃ l1 l2, l = l1 ++ p :: l2 ∧ ∀ q ∈ l1, getCell b q.1 q.2 ≠ 0 := by
  intro l
  induction l with
  | nil => intro p h; simp [findEmptyAux] at h
  | cons x t ih =>
    intro p h
    simp only [findEmptyAux] at h
    by_cases hx : getCell b x.1 x.2 = 0
    · rw [if_pos hx] at h
      injection h with h
      subst h
      exact ⟨[], t, rfl, by simp⟩
    · rw [if_neg hx] at h
      obtain ⟨l1, l2, he, hall⟩ := ih p h
      refine ⟨x :: l1, l2, by rw [he]; rfl, ?_⟩
      intro q hq
      rcases List.mem_cons.mp hq with rfl | hq'
      · exact hx
      · exact hall q hq'

theorem find_empty_eq_none {b : Grid} :
    find_empty b = none ↔ ∀ r < 9, ∀ c < 9, getCell b r c ≠ 0 := by
  unfold find_empty
  rw [findEmptyAux_eq_none]
  constructor
  · intro h r hr c hc
    exact h (r, c) (mem_cellList.mpr ⟨hr, hc⟩)
  · rintro h ⟨pr, pc⟩ hp
    exact h pr (mem_cellList.mp hp).1 pc (mem_cellList.mp hp).2

theorem find_empty_eq_some {b : Grid} {r c : Nat}
    (h : find_empty b = some (r, c)) : r < 9 ∧ c < 9 ∧ getCell b r c = 0 := by
  unfold find_empty at h
  obtain ⟨hm, h0⟩ := findEmptyAux_eq_some _ _ h
  obtain ⟨hr, hc⟩ := mem_cellList.mp hm
  exact ⟨hr, hc, h0⟩

theorem find_empty_first {b : Grid} {r c : Nat}
    (h : find_empty b = some (r, c)) :
    ∀ r' c', r' < 9 → c' < 9 → 9 * r' + c' < 9 * r + c → getCell b r' c' ≠ 0 := by
  unfold find_empty at h
  obtain ⟨l1, l2, he, hall⟩ := findEmptyAux_split _ _ h
  have hk : l1.length < 81 := by
    have := cellList_length
    rw [he] at this
    simp only [List.length_append, List.length_cons] at this
    omega
  have hidx : cellList[l1.length]? = some (r, c) := by
    rw [he, List.getElem?_append_right (Nat.le_refl _)]
    simp
  have hvals : cellList[l1.length]? = some (l1.length / 9, l1.length % 9) := by
    unfold cellList
    rw [List.getElem?_map, List.getElem?_range hk]
    rfl
  have hlen : l1.length = 9 * r + c := by
    rw [hvals] at hidx
    injection hidx with hidx
    rw [Prod.mk.injEq] at hidx
    omega
  intro r' c' hr' hc' hlt
  have hmem : (r', c') ∈ l1 := by
    have h81 : 9 * r' + c' < 81 := by omega
    have hq : cellList[9 * r' + c']? = some (r', c') := by
      unfold cellList
      rw [List.getElem?_map, List.getElem?_range h81]
      have e1 : (9 * r' + c') / 9 = r' := by omega
      have e2 : (9 * r' + c') % 9 = c' := by omega
      simp [e1, e2]
    rw [he, List.getElem?_append_left (by omega)] at hq
    exact List.getElem?_mem hq
  exact hall _ hmem

/-! ### Characterisation of `is_valid` -/

theorem is_valid_true_char {b : Grid} {r c num : Nat} :
    is_valid b r c num = true ↔
    (∀ x < 9, getCell b r x ≠ num) ∧ (∀ x < 9, getCell b x c ≠ num) ∧
    (∀ i < 3, ∀ j < 3, getCell b (i + 3 * (r / 3)) (j + 3 * (c / 3)) ≠ num) := by
  unfold is_valid
  simp [List.all_eq_true, List.mem_range, bne_iff_ne]
  tauto

/-- `is_valid` checks exactly the cells visible from `(r, c)`. -/
theorem is_valid_sees_char {b : Grid} {r c : Nat} (hr : r < 9) (hc : c < 9)
    {num : Nat} :
    is_valid b r c num = true ↔
    ∀ r' c', r' < 9 → c' < 9 → sees (r, c) (r', c') → getCell b r' c' ≠ num := by
  rw [is_valid_true_char]
  constructor
  · rintro ⟨h1, h2, h3⟩ r' c' hr' hc' hsee
    rcases hsee with he | he | ⟨he1, he2⟩
    · subst he
      exact h1 c' hc'
    · subst he
      exact h2 r' hr'
    · have hh := h3 (r' % 3) (by omega) (c' % 3) (by omega)
      have e1 : r' % 3 + 3 * (r / 3) = r' := by omega
      have e2 : c' % 3 + 3 * (c / 3) = c' := by omega
      rwa [e1, e2] at hh
  · intro h
    refine ⟨?_, ?_, ?_⟩
    · intro x hx
      exact h r x hr hx (Or.inl rfl)
    · intro x hx
      exact h x c hx hc (Or.inr (Or.inl rfl))
    · intro i hi j hj
      exact h (i + 3 * (r / 3)) (j + 3 * (c / 3)) (by omega) (by omega)
        (Or.inr (Or.inr ⟨by omega, by omega⟩))

/-- Placing a valid value at an empty cell preserves consistency. -/
theorem consistent_setCell {b : Grid} {r c num : Nat} (hwf : WF b)
    (hcons : consistentGrid b) (hr : r < 9) (hc : c < 9)
    (h0 : getCell b r c = 0) (hval : is_valid b r c num = true) :
    consistentGrid (setCell b r c num) := by
  have hK := (is_valid_sees_char hr hc).mp hval
  intro r1 hr1 c1 hc1 r2 hr2 c2 hc2 hne hsee hnz
  by_cases h1 : (r1, c1) = (r, c) <;> by_cases h2 : (r2, c2) = (r, c)
  · exact absurd (h1.trans h2.symm) hne
  · obtain ⟨e1, e2⟩ := Prod.mk.injEq .. ▸ h1
    subst e1; subst e2
    rw [getCell_setCell_wf num hwf hr hc, getCell_setCell_ne num h2]
    intro e
    exact hK r2 c2 hr2 hc2 (by simpa [h1] using hsee) e.symm
  · obtain ⟨e1, e2⟩ := Prod.mk.injEq .. ▸ h2
    subst e1; subst e2
    rw [getCell_setCell_ne num h1] at hnz ⊢
    rw [getCell_setCell_wf num hwf hr hc]
    exact fun e => hK r1 c1 hr1 hc1 (sees_symm hsee) e
  · rw [getCell_setCell_ne num h1] at hnz ⊢
    rw [getCell_setCell_ne num h2]
    exact hcons r1 hr1 c1 hc1 r2 hr2 c2 hc2 hne hsee hnz

/-- The digit a solution puts at an empty cell is a valid placement there. -/
theorem solution_digit_valid {b s : Grid} {r c : Nat} (hsol : solutionOf b s)
    (h0 : getCell b r c = 0) (hr : r < 9) (hc : c < 9) :
    is_valid b r c (getCell s r c) = true := by
  apply (is_valid_sees_char hr hc).mpr
  intro r' c' hr' hc' hsee he
  have hv1 : 1 ≤ getCell s r c := (hsol.1.2.1 r hr c hc).1
  have hbnz : getCell b r' c' ≠ 0 := by rw [he]; omega
  have hs' : getCell s r' c' = getCell b r' c' := hsol.2 r' hr' c' hc' hbnz
  have hne : (r, c) ≠ (r', c') := by
    intro e
    obtain ⟨e1, e2⟩ := Prod.mk.injEq .. ▸ e
    rw [← e1, ← e2] at hbnz
    exact hbnz h0
  exact hsol.1.2.2 r hr c hc r' hr' c' hc' hne hsee (by omega)
    (by rw [hs', he])

/-! ### Extension and extensionality lemmas -/

theorem extendsTo_trans {a b c : Grid} (h1 : extendsTo a b)
    (h2 : extendsTo b c) : extendsTo a c := by
  intro r hr cc hcc hnz
  have e1 := h1 r hr cc hcc hnz
  have hnz2 : getCell b r cc ≠ 0 := by rw [e1]; exact hnz
  rw [h2 r hr cc hcc hnz2, e1]

theorem extendsTo_setCell_of_zero {b : Grid} {r c : Nat} (v : Nat)
    (h0 : getCell b r c = 0) : extendsTo b (setCell b r c v) := by
  intro r' hr' c' hc' hnz
  have hne : (r', c') ≠ (r, c) := by
    intro e
    obtain ⟨e1, e2⟩ := Prod.mk.injEq .. ▸ e
    rw [e1, e2] at hnz
    exact hnz h0
  exact getCell_setCell_ne v hne

/-- A solution of `b` is still a solution after `b` receives one of the
solution's own digits. -/
theorem solutionOf_setCell {b s : Grid} {r c : Nat} (hsol : solutionOf b s)
    (hwf : WF b) (hr : r < 9) (hc : c < 9) :
    solutionOf (setCell b r c (getCell s r c)) s := by
  refine ⟨hsol.1, ?_⟩
  intro r' hr' c' hc' hnz
  by_cases he : (r', c') = (r, c)
  · obtain ⟨e1, e2⟩ := Prod.mk.injEq .. ▸ he
    subst e1; subst e2
    rw [getCell_setCell_wf _ hwf hr hc]
  · rw [getCell_setCell_ne _ he] at hnz ⊢
    exact hsol.2 r' hr' c' hc' hnz

/-- A board with a solution is consistent and has in-range values. -/
theorem consistent_of_solution {b s : Grid} (hsol : solutionOf b s) :
    consistentGrid b ∧ boundedVals b := by
  constructor
  · intro r1 hr1 c1 hc1 r2 hr2 c2 hc2 hne hsee hnz he
    have e1 := hsol.2 r1 hr1 c1 hc1 hnz
    have hnz2 : getCell b r2 c2 ≠ 0 := by rw [← he]; exact hnz
    have e2 := hsol.2 r2 hr2 c2 hc2 hnz2
    exact hsol.1.2.2 r1 hr1 c1 hc1 r2 hr2 c2 hc2 hne hsee
      (by rw [e1]; exact hnz) (by rw [e1, e2, he])
  · intro r hr c hc
    by_cases hz : getCell b r c = 0
    · omega
    · rw [← hsol.2 r hr c hc hz]
      exact (hsol.1.2.1 r hr c hc).2

theorem grid_ext {s t : Grid} (hs : WF s) (ht : WF t)
    (h : ∀ r < 9, ∀ c < 9, getCell s r c = getCell t r c) : s = t := by
  apply List.ext_getElem (by rw [hs.1, ht.1])
  intro i h1 h2
  apply List.ext_getElem
  · rw [hs.2 _ (List.getElem_mem h1), ht.2 _ (List.getElem_mem h2)]
  · intro j hj1 hj2
    have hi9 : i < 9 := by rw [← hs.1]; exact h1
    have hj9 : j < 9 := by
      have := hs.2 _ (List.getElem_mem h1)
      omega
    have hh := h i hi9 j hj9
    unfold getCell at hh
    rw [List.getD_eq_getElem s [] h1, List.getD_eq_getElem t [] h2,
      List.getD_eq_getElem _ 0 hj1, List.getD_eq_getElem _ 0 hj2] at hh
    exact hh

/-! ### Unfolding lemmas for the solver -/

theorem tryNums_nil {solve : Grid → Option (Bool × Grid)} {board : Grid}
    {r c : Nat} : tryNums solve board r c [] = some (false, board) := rfl

theorem tryNums_cons_invalid {solve : Grid → Option (Bool × Grid)}
    {board : Grid} {r c num : Nat} {rest : List Nat}
    (hv : is_valid board r c num = false) :
    tryNums solve board r c (num :: rest) = tryNums solve board r c rest := by
  simp [tryNums, hv]

theorem tryNums_cons_none {solve : Grid → Option (Bool × Grid)}
    {board : Grid} {r c num : Nat} {rest : List Nat}
    (hv : is_valid board r c num = true)
    (hs : solve (setCell board r c num) = none) :
    tryNums solve board r c (num :: rest) = none := by
  simp [tryNums, hv, hs]

theorem tryNums_cons_true {solve : Grid → Option (Bool × Grid)}
    {board : Grid} {r c num : Nat} {rest : List Nat} {b2 : Grid}
    (hv : is_valid board r c num = true)
    (hs : solve (setCell board r c num) = some (true, b2)) :
    tryNums solve board r c (num :: rest) = some (true, b2) := by
  simp [tryNums, hv, hs]

theorem tryNums_cons_false {solve : Grid → Option (Bool × Grid)}
    {board : Grid} {r c num : Nat} {rest : List Nat} {b2 : Grid}
    (hv : is_valid board r c num = true)
    (hs : solve (setCell board r c num) = some (false, b2)) :
    tryNums solve board r c (num :: rest) =
      tryNums solve (setCell b2 r c 0) r c rest := by
  simp [tryNums, hv, hs]

theorem solveF_succ_none {b : Grid} {n : Nat} (hfe : find_empty b = none) :
    solveF (n + 1) b = some (true, b) := by
  simp [solveF, hfe]

theorem solveF_succ_some {b : Grid} {n r c : Nat}
    (hfe : find_empty b = some (r, c)) :
    solveF (n + 1) b =
      tryNums (solveF n) b r c [1, 2, 3, 4, 5, 6, 7, 8, 9] := by
  simp [solveF, hfe]

/-! ### The failing solver restores the board

In the source, every placement made on a failing search path is reverted by
`board[row][col] = 0`, so a `False` return leaves the board exactly as the
caller passed it. -/

theorem solveF_false : ∀ {fuel : Nat} (b b' : Grid),
    solveF fuel b = some (false, b') → b' = b := by
  intro fuel
  induction fuel with
  | zero => intro b b' h; simp [solveF] at h
  | succ n ih =>
    intro b b' h
    cases hfe : find_empty b with
    | none =>
      rw [solveF_succ_none hfe] at h
      simp at h
    | some rc =>
      obtain ⟨r, c⟩ := rc
      have h0 := (find_empty_eq_some hfe).2.2
      rw [solveF_succ_some hfe] at h
      clear hfe
      generalize hnums : [1, 2, 3, 4, 5, 6, 7, 8, 9] = nums at h
      clear hnums
      induction nums generalizing b with
      | nil =>
        rw [tryNums_nil] at h
        injection h with h
        exact (congrArg Prod.snd h).symm
      | cons num rest ihn =>
        by_cases hv : is_valid b r c num
        · cases hs : solveF n (setCell b r c num) with
          | none =>
            rw [tryNums_cons_none hv hs] at h
            exact absurd h (by simp)
          | some res =>
            obtain ⟨res1, b2⟩ := res
            cases res1 with
            | true =>
              rw [tryNums_cons_true hv hs] at h
              simp at h
            | false =>
              have hb2 : b2 = setCell b r c num := ih _ _ hs
              rw [tryNums_cons_false hv hs, hb2, setCell_restore num h0] at h
              exact ihn b h0 h
        · rw [tryNums_cons_invalid (by simpa using hv)] at h
          exact ihn b h0 h

/-! ### Fuel sufficiency: `numEmpty b + 1` units of fuel always suffice -/

theorem solveF_isSome : ∀ (fuel : Nat) (b : Grid), WF b →
    numEmpty b < fuel → (solveF fuel b).isSome = true := by
  intro fuel
  induction fuel with
  | zero => intro b _ h; omega
  | succ n ih =>
    intro b hwf hn
    cases hfe : find_empty b with
    | none => rw [solveF_succ_none hfe]; rfl
    | some rc =>
      obtain ⟨r, c⟩ := rc
      obtain ⟨hr, hc, h0⟩ := find_empty_eq_some hfe
      rw [solveF_succ_some hfe]
      have haux : ∀ (nums : List Nat), (∀ num ∈ nums, num ≠ 0) →
          (tryNums (solveF n) b r c nums).isSome = true := by
        intro nums
        induction nums with
        | nil => intro _; rw [tryNums_nil]; rfl
        | cons num rest ihn =>
          intro hnz
          by_cases hv : is_valid b r c num
          · have hwf' : WF (setCell b r c num) := WF_setCell r c num hwf
            have hne : numEmpty (setCell b r c num) < n := by
              have h1 := numEmpty_setCell hwf hr hc h0
                (hnz num (List.mem_cons_self _ _))
              have h2 := numEmpty_pos hr hc h0
              omega
            have hsome := ih (setCell b r c num) hwf' hne
            cases hs : solveF n (setCell b r c num) with
            | none => rw [hs] at hsome; simp at hsome
            | some res =>
              obtain ⟨res1, b2⟩ := res
              cases res1 with
              | true => rw [tryNums_cons_true hv hs]; rfl
              | false =>
                have hb2 : b2 = setCell b r c num := solveF_false _ _ hs
                rw [tryNums_cons_false hv hs, hb2, setCell_restore num h0]
                exact ihn (fun m hm => hnz m (List.mem_cons_of_mem _ hm))
          · rw [tryNums_cons_invalid (by simpa using hv)]
            exact ihn (fun m hm => hnz m (List.mem_cons_of_mem _ hm))
      exact haux _ (by decide)

/-! ### Frame property: the solver never rewrites a non-zero cell -/

theorem extendsTo_refl (b : Grid) : extendsTo b b :=
  fun _ _ _ _ _ => rfl

theorem solveF_frame : ∀ {fuel : Nat} (b : Grid) (res : Bool) (g : Grid),
    solveF fuel b = some (res, g) → WF b → WF g ∧ extendsTo b g := by
  intro fuel
  induction fuel with
  | zero => intro b res g h; simp [solveF] at h
  | succ n ih =>
    intro b res g h hwf
    cases hfe : find_empty b with
    | none =>
      rw [solveF_succ_none hfe] at h
      injection h with h
      have e1 : b = g := congrArg Prod.snd h
      subst e1
      exact ⟨hwf, extendsTo_refl b⟩
    | some rc =>
      obtain ⟨r, c⟩ := rc
      obtain ⟨hr, hc, h0⟩ := find_empty_eq_some hfe
      rw [solveF_succ_some hfe] at h
      clear hfe
      generalize hnums : [1, 2, 3, 4, 5, 6, 7, 8, 9] = nums at h
      clear hnums
      induction nums with
      | nil =>
        rw [tryNums_nil] at h
        injection h with h
        have e1 : b = g := congrArg Prod.snd h
        subst e1
        exact ⟨hwf, extendsTo_refl b⟩
      | cons num rest ihn =>
        by_cases hv : is_valid b r c num
        · cases hs : solveF n (setCell b r c num) with
          | none =>
            rw [tryNums_cons_none hv hs] at h
            exact absurd h (by simp)
          | some res2 =>
            obtain ⟨res1, b2⟩ := res2
            cases res1 with
            | true =>
              rw [tryNums_cons_true hv hs] at h
              injection h with h
              have e1 : res = true := (congrArg Prod.fst h).symm
              have e2 : b2 = g := congrArg Prod.snd h
              subst e2
              obtain ⟨hwfg, hext⟩ := ih _ _ _ hs (WF_setCell r c num hwf)
              exact ⟨hwfg, extendsTo_trans (extendsTo_setCell_of_zero num h0) hext⟩
            | false =>
              have hb2 : b2 = setCell b r c num := solveF_false _ _ hs
              rw [tryNums_cons_false hv hs, hb2, setCell_restore num h0] at h
              exact ihn h
        · rw [tryNums_cons_invalid (by simpa using hv)] at h
          exact ihn h

/-! ### Soundness: a `True` result is a valid completion of the input -/

theorem boundedVals_setCell {b : Grid} {r c num : Nat} (hwf : WF b)
    (hr : r < 9) (hc : c < 9) (hnum : num ≤ 9) (hbnd : boundedVals b) :
    boundedVals (setCell b r c num) := by
  intro r' hr' c' hc'
  by_cases he : (r', c') = (r, c)
  · obtain ⟨e1, e2⟩ := Prod.mk.injEq .. ▸ he
    subst e1; subst e2
    rw [getCell_setCell_wf num hwf hr hc]
    exact hnum
  · rw [getCell_setCell_ne num he]
    exact hbnd r' hr' c' hc'

theorem solveF_sound : ∀ {fuel : Nat} (b g : Grid),
    solveF fuel b = some (true, g) → WF b → consistentGrid b →
    boundedVals b → solvedGrid g ∧ extendsTo b g := by
  intro fuel
  induction fuel with
  | zero => intro b g h; simp [solveF] at h
  | succ n ih =>
    intro b g h hwf hcons hbnd
    cases hfe : find_empty b with
    | none =>
      rw [solveF_succ_none hfe] at h
      injection h with h
      have e1 : b = g := congrArg Prod.snd h
      subst e1
      refine ⟨⟨hwf, ?_, hcons⟩, extendsTo_refl b⟩
      intro r hr c hc
      have hnz := (find_empty_eq_none.mp hfe) r hr c hc
      have := hbnd r hr c hc
      omega
    | some rc =>
      obtain ⟨r, c⟩ := rc
      obtain ⟨hr, hc, h0⟩ := find_empty_eq_some hfe
      rw [solveF_succ_some hfe] at h
      have haux : ∀ (nums : List Nat), (∀ num ∈ nums, num ≤ 9) →
          tryNums (solveF n) b r c nums = some (true, g) →
          solvedGrid g ∧ extendsTo b g := by
        intro nums
        induction nums with
        | nil =>
          intro _ hh
          rw [tryNums_nil] at hh
          injection hh with hh
          exact absurd (congrArg Prod.fst hh) (by simp)
        | cons num rest ihn =>
          intro hle hh
          by_cases hv : is_valid b r c num
          · cases hs : solveF n (setCell b r c num) with
            | none =>
              rw [tryNums_cons_none hv hs] at hh
              exact absurd hh (by simp)
            | some res2 =>
              obtain ⟨res1, b2⟩ := res2
              cases res1 with
              | true =>
                rw [tryNums_cons_true hv hs] at hh
                injection hh with hh
                have e2 : b2 = g := congrArg Prod.snd hh
                subst e2
                obtain ⟨hsol, hext⟩ := ih _ _ hs (WF_setCell r c num hwf)
                  (consistent_setCell hwf hcons hr hc h0 hv)
                  (boundedVals_setCell hwf hr hc
                    (hle num (List.mem_cons_self _ _)) hbnd)
                exact ⟨hsol,
                  extendsTo_trans (extendsTo_setCell_of_zero num h0) hext⟩
              | false =>
                have hb2 : b2 = setCell b r c num := solveF_false _ _ hs
                rw [tryNums_cons_false hv hs, hb2, setCell_restore num h0] at hh
                exact ihn (fun m hm => hle m (List.mem_cons_of_mem _ hm)) hh
          · rw [tryNums_cons_invalid (by simpa using hv)] at hh
            exact ihn (fun m hm => hle m (List.mem_cons_of_mem _ hm)) hh
      exact haux _ (by decide) h

/-! ### Completeness: if a completion exists, the search returns `True` -/

theorem solveF_complete : ∀ {fuel : Nat} (b s : Grid), numEmpty b < fuel →
    WF b → solutionOf b s → ∃ g, solveF fuel b = some (true, g) := by
  intro fuel
  induction fuel with
  | zero => intro b s h; omega
  | succ n ih =>
    intro b s hn hwf hsol
    cases hfe : find_empty b with
    | none => exact ⟨b, solveF_succ_none hfe⟩
    | some rc =>
      obtain ⟨r, c⟩ := rc
      obtain ⟨hr, hc, h0⟩ := find_empty_eq_some hfe
      rw [solveF_succ_some hfe]
      have hv19 := hsol.1.2.1 r hr c hc
      have hvalid : is_valid b r c (getCell s r c) = true :=
        solution_digit_valid hsol h0 hr hc
      have hnlt : numEmpty (setCell b r c (getCell s r c)) < n := by
        have h1 := @numEmpty_setCell b r c (getCell s r c) hwf hr hc h0
          (by omega)
        have h2 := numEmpty_pos hr hc h0
        omega
      have hrec : ∃ g, solveF n (setCell b r c (getCell s r c)) =
          some (true, g) :=
        ih _ s hnlt (WF_setCell r c _ hwf) (solutionOf_setCell hsol hwf hr hc)
      have haux : ∀ (nums : List Nat), getCell s r c ∈ nums →
          (∀ num ∈ nums, num ≠ 0) →
          ∃ g, tryNums (solveF n) b r c nums = some (true, g) := by
        intro nums
        induction nums with
        | nil => intro hm; exact absurd hm (List.not_mem_nil _)
        | cons num rest ihn =>
          intro hm hnz
          by_cases hveq : num = getCell s r c
          · subst hveq
            obtain ⟨g0, hg0⟩ := hrec
            exact ⟨g0, tryNums_cons_true hvalid hg0⟩
          · have hmem' : getCell s r c ∈ rest := by
              rcases List.mem_cons.mp hm with he | he
              · exact absurd he.symm hveq
              · exact he
            by_cases hval2 : is_valid b r c num
            · have hlt2 : numEmpty (setCell b r c num) < n := by
                have h1 := numEmpty_setCell hwf hr hc h0
                  (hnz num (List.mem_cons_self _ _))
                have h2 := numEmpty_pos hr hc h0
                omega
              have hsome := solveF_isSome n (setCell b r c num)
                (WF_setCell r c num hwf) hlt2
              cases hs : solveF n (setCell b r c num) with
              | none => rw [hs] at hsome; simp at hsome
              | some res2 =>
                obtain ⟨res1, b2⟩ := res2
                cases res1 with
                | true => exact ⟨b2, tryNums_cons_true hval2 hs⟩
                | false =>
                  have hb2 : b2 = setCell b r c num := solveF_false _ _ hs
                  rw [tryNums_cons_false hval2 hs, hb2, setCell_restore num h0]
                  exact ihn hmem'
                    (fun m hmm => hnz m (List.mem_cons_of_mem _ hmm))
            · rw [tryNums_cons_invalid (by simpa using hval2)]
              exact ihn hmem'
                (fun m hmm => hnz m (List.mem_cons_of_mem _ hmm))
      apply haux
      · have : 1 ≤ getCell s r c ∧ getCell s r c ≤ 9 := hv19
        simp only [List.mem_cons, List.mem_singleton]
        omega
      · decide

/-! ### Wrappers for `solve_sudoku` at the canonical fuel -/

theorem solve_sudoku_eq_solveF {b : Grid} (hwf : WF b) :
    solveF (numEmpty b + 1) b = some (solve_sudoku b) := by
  have h := solveF_isSome (numEmpty b + 1) b hwf (by omega)
  cases hs : solveF (numEmpty b + 1) b with
  | none => rw [hs] at h; simp at h
  | some res => unfold solve_sudoku; rw [hs]; rfl

theorem solve_sudoku_complete {b s : Grid} (hwf : WF b)
    (hsol : solutionOf b s) :
    (solve_sudoku b).1 = true ∧ solutionOf b (solve_sudoku b).2 := by
  obtain ⟨g, hg⟩ := @solveF_complete (numEmpty b + 1) b s (by omega) hwf hsol
  have he := solve_sudoku_eq_solveF hwf
  rw [hg] at he
  injection he with he
  obtain ⟨hcons, hbnd⟩ := consistent_of_solution hsol
  obtain ⟨hsolved, hext⟩ := solveF_sound b g hg hwf hcons hbnd
  rw [← he]
  exact ⟨rfl, hsolved, hext⟩

/-! ### Uniqueness certificates by forced-cell propagation

To identify the solver's output on concrete boards without evaluating the
exponential search in the kernel, we prove uniqueness of the completion by a
chain of forced deductions: a cell is *forced* to `v` when every other value
in 1..9 already occurs in a visible cell, so every solution must put `v`
there.  Each step of a chain is checked by `decide`. -/

/-- Value `w` is excluded at `(r, c)`: it already occurs in a cell visible
from `(r, c)`. -/
def excluded (P : Grid) (r c w : Nat) : Prop :=
  ∃ r' < 9, ∃ c' < 9,
    ((r', c') ≠ (r, c) ∧ sees (r, c) (r', c') ∧ getCell P r' c' = w)

instance (P : Grid) (r c w : Nat) : Decidable (excluded P r c w) := by
  unfold excluded; infer_instance

def forcedAt (P : Grid) (r c v : Nat) : Prop :=
  r < 9 ∧ c < 9 ∧ 1 ≤ v ∧ v ≤ 9 ∧
  ∀ w < 10, 1 ≤ w → w ≠ v → excluded P r c w

instance (P : Grid) (r c v : Nat) : Decidable (forcedAt P r c v) := by
  unfold forcedAt; infer_instance

theorem forced_step {b s P : Grid} {r c v : Nat} (hs : solutionOf b s)
    (hP : extendsTo P s) (hf : forcedAt P r c v) (hWP : WF P) :
    extendsTo (setCell P r c v) s := by
  obtain ⟨hr, hc, hv1, hv9, hforce⟩ := hf
  have hu := hs.1.2.1 r hr c hc
  have hval : getCell s r c = v := by
    by_contra hne
    obtain ⟨r', hr', c', hc', hne', hsee, hPval⟩ :=
      hforce (getCell s r c) (by omega) (by omega) hne
    have hPnz : getCell P r' c' ≠ 0 := by rw [hPval]; omega
    have hsP : getCell s r' c' = getCell P r' c' := hP r' hr' c' hc' hPnz
    exact hs.1.2.2 r hr c hc r' hr' c' hc' (fun e => hne' e.symm) hsee
      (by omega) (by rw [hsP, hPval])
  intro r2 hr2 c2 hc2 hnz
  by_cases he : (r2, c2) = (r, c)
  · obtain ⟨e1, e2⟩ := Prod.mk.injEq .. ▸ he
    subst e1; subst e2
    rw [getCell_setCell_wf v hWP hr hc]
    exact hval
  · rw [getCell_setCell_ne v he] at hnz ⊢
    exact hP r2 hr2 c2 hc2 hnz

/-- Apply a list of `(row, col, value)` placements in order. -/
def applySteps (P : Grid) : List (Nat × Nat × Nat) → Grid
  | [] => P
  | (r, c, v) :: rest => applySteps (setCell P r c v) rest

/-- Check that each placement of the list is forced at its point. -/
def stepsOk (P : Grid) : List (Nat × Nat × Nat) → Bool
  | [] => true
  | (r, c, v) :: rest => decide (forcedAt P r c v) && stepsOk (setCell P r c v) rest

theorem forced_chain {b s : Grid} (hs : solutionOf b s) :
    ∀ (steps : List (Nat × Nat × Nat)) (P : Grid), WF P → extendsTo P s →
    stepsOk P steps = true → extendsTo (applySteps P steps) s := by
  intro steps
  induction steps with
  | nil =>
    intro P _ hP _
    exact hP
  | cons t rest ih =>
    obtain ⟨r, c, v⟩ := t
    intro P hWP hP hok
    simp only [stepsOk, Bool.and_eq_true, decide_eq_true_eq] at hok
    exact ih _ (WF_setCell _ _ _ hWP) (forced_step hs hP hok.1 hWP) hok.2

/-- A full grid with no zero entry pins down every solution extending it. -/
theorem eq_of_extends_full {s t : Grid} (hws : WF s) (hwt : WF t)
    (hnz : ∀ r < 9, ∀ c < 9, getCell t r c ≠ 0) (h : extendsTo t s) :
    s = t := by
  apply grid_ext hws hwt
  intro r hr c hc
  exact h r hr c hc (hnz r hr c hc)

/-- The unique completion of the sample board (row 0 is the one of the
spec's end-to-end example). -/
def solvedSample : Grid :=
  [[5, 3, 4, 6, 7, 8, 9, 1, 2],
   [6, 7, 2, 1, 9, 5, 3, 4, 8],
   [1, 9, 8, 3, 4, 2, 5, 6, 7],
   [8, 5, 9, 7, 6, 1, 4, 2, 3],
   [4, 2, 6, 8, 5, 3, 7, 9, 1],
   [7, 1, 3, 9, 2, 4, 8, 5, 6],
   [9, 6, 1, 5, 3, 7, 2, 8, 4],
   [2, 8, 7, 4, 1, 9, 6, 3, 5],
   [3, 4, 5, 2, 8, 6, 1, 7, 9]]

/-- A chain of forced placements that fills the sample board completely. -/
def sampleSteps : List (Nat × Nat × Nat) :=
  [(4, 4, 5), (5, 3, 9), (6, 4, 3), (6, 5, 7), (6, 8, 4), (7, 7, 3),
   (2, 4, 4), (2, 5, 2), (2, 8, 7), (3, 3, 7), (4, 1, 2), (4, 7, 9),
   (6, 3, 5), (7, 0, 2), (7, 2, 7), (7, 6, 6), (8, 5, 6), (8, 6, 1),
   (0, 3, 6), (0, 5, 8), (0, 8, 2), (1, 7, 4), (1, 8, 8), (2, 0, 1),
   (2, 3, 3), (2, 6, 5), (3, 6, 4), (4, 2, 6), (4, 6, 7), (5, 6, 8),
   (5, 7, 5), (6, 0, 9), (6, 2, 1), (7, 1, 8), (8, 0, 3), (8, 3, 2),
   (0, 2, 4), (0, 6, 9), (0, 7, 1), (1, 1, 7), (1, 2, 2), (1, 6, 3),
   (3, 5, 1), (3, 7, 2), (5, 1, 1), (5, 2, 3), (5, 5, 4), (8, 2, 5),
   (3, 1, 5), (3, 2, 9), (8, 1, 4)]

/-- The sample board has `solvedSample` as its only completion. -/
theorem mock_unique : ∀ s, solutionOf mock_extract_sudoku s →
    s = solvedSample := by
  intro s hs
  have h1 := forced_chain hs sampleSteps mock_extract_sudoku (by decide)
    hs.2 (by decide)
  rw [show applySteps mock_extract_sudoku sampleSteps = solvedSample from
    by decide] at h1
  exact eq_of_extends_full hs.1.1 (by decide) (by decide) h1

/-! ### Claim C1: unique solutions are found exactly -/

/-- C1: for every 9×9 grid with exactly one valid Sudoku completion `S`,
`solve_sudoku` returns `True` and leaves the board equal to `S`; in
particular, the spec's sample board solves to the completion whose row 0 is
`[5, 3, 4, 6, 7, 8, 9, 1, 2]`. -/
theorem C1_solver_finds_unique_solution :
    (∀ b S : Grid, WF b → solutionOf b S → (∀ s, solutionOf b s → s = S) →
      solve_sudoku b = (true, S)) ∧
    solve_sudoku mock_extract_sudoku = (true, solvedSample) ∧
    (solve_sudoku mock_extract_sudoku).2.getD 0 [] =
      [5, 3, 4, 6, 7, 8, 9, 1, 2] := by
  have hmain : ∀ b S : Grid, WF b → solutionOf b S →
      (∀ s, solutionOf b s → s = S) → solve_sudoku b = (true, S) := by
    intro b S hwf hS huniq
    obtain ⟨h1, h2⟩ := solve_sudoku_complete hwf hS
    exact Prod.ext h1 (huniq _ h2)
  have hmock : solve_sudoku mock_extract_sudoku = (true, solvedSample) :=
    hmain mock_extract_sudoku solvedSample (by decide) (by decide) mock_unique
  exact ⟨hmain, hmock, by rw [hmock]; rfl⟩

/-- Witness for C1 at a concrete one-clue-removed board. -/
theorem C1_witness :
    solve_sudoku (setCell solvedSample 8 8 0) = (true, solvedSample) := by
  apply C1_solver_finds_unique_solution.1 (setCell solvedSample 8 8 0)
    solvedSample (by decide) (by decide)
  intro s hs
  have h1 := forced_chain hs [(8, 8, 9)] (setCell solvedSample 8 8 0)
    (by decide) hs.2 (by decide)
  rw [show applySteps (setCell solvedSample 8 8 0) [(8, 8, 9)] = solvedSample
    from by decide] at h1
  exact eq_of_extends_full hs.1.1 (by decide) (by decide) h1

/-! ### Claim C5: idempotence on already-solved grids -/

/-- C5: on an already fully solved valid grid, `solve_sudoku` returns `True`
and leaves every cell unchanged. -/
theorem C5_solve_idempotent_on_solved :
    ∀ b : Grid, solvedGrid b → solve_sudoku b = (true, b) := by
  intro b hb
  have hfe : find_empty b = none := by
    apply find_empty_eq_none.mpr
    intro r hr c hc
    have := hb.2.1 r hr c hc
    omega
  unfold solve_sudoku
  rw [solveF_succ_none hfe]
  rfl

/-- Witness for C5 on the concrete solved sample grid. -/
theorem C5_witness : solve_sudoku solvedSample = (true, solvedSample) :=
  C5_solve_idempotent_on_solved solvedSample (by decide)

/-! ### Claim C9: termination with fuel bounded by the empty-cell count -/

/-- C9: the solver's recursion is well-founded: `numEmpty b` strictly
decreases at each recursive call, so fuel `numEmpty b + 1` — and a fortiori
the uniform bound `82` arising from `numEmpty b ≤ 81` — never runs out on a
well-formed board. -/
theorem C9_solver_terminates :
    ∀ b : Grid, WF b →
      (solveF (numEmpty b + 1) b).isSome = true ∧
      numEmpty b ≤ 81 ∧ (solveF 82 b).isSome = true := by
  intro b hwf
  refine ⟨solveF_isSome _ b hwf (by omega), numEmpty_le b, ?_⟩
  have := numEmpty_le b
  exact solveF_isSome 82 b hwf (by omega)

/-- Witness for C9 at the concrete sample board. -/
theorem C9_witness :
    (solveF (numEmpty mock_extract_sudoku + 1) mock_extract_sudoku).isSome
      = true ∧
    numEmpty mock_extract_sudoku ≤ 81 ∧
    (solveF 82 mock_extract_sudoku).isSome = true :=
  C9_solver_terminates mock_extract_sudoku (by decide)

/-! ### Claim C10: clues are never overwritten -/

/-- C10: whatever boolean `solve_sudoku` returns, every non-zero cell of the
input keeps exactly its value in the final board. -/
theorem C10_clues_preserved :
    ∀ b : Grid, WF b → ∀ r < 9, ∀ c < 9, getCell b r c ≠ 0 →
      getCell (solve_sudoku b).2 r c = getCell b r c := by
  intro b hwf r hr c hc hnz
  have he := solve_sudoku_eq_solveF hwf
  obtain ⟨-, hext⟩ :=
    solveF_frame b (solve_sudoku b).1 (solve_sudoku b).2 he hwf
  exact hext r hr c hc hnz

/-- Witness for C10 at a concrete clue of the sample board. -/
theorem C10_witness :
    getCell (solve_sudoku mock_extract_sudoku).2 0 0 =
      getCell mock_extract_sudoku 0 0 :=
  C10_clues_preserved mock_extract_sudoku (by decide) 0 (by decide) 0
    (by decide) (by decide)

/-! ### Claim C2: characterisation of the validator -/

/-- C2: `is_valid(grid, r, c, v)` returns `False` exactly when `v` already
occurs in row `r`, in column `c`, or in the 3×3 box with origin
`(3*(r/3), 3*(c/3))`.  The function is pure, so it has no side effect on the
grid; on completed valid grids this specialises to the spec's testable
property. -/
theorem C2_validator_characterisation :
    ∀ (b : Grid) (r c v : Nat), r < 9 → c < 9 → 1 ≤ v → v ≤ 9 →
      (is_valid b r c v = false ↔
        (∃ x < 9, getCell b r x = v) ∨ (∃ x < 9, getCell b x c = v) ∨
        (∃ i < 3, ∃ j < 3,
          getCell b (i + 3 * (r / 3)) (j + 3 * (c / 3)) = v)) := by
  intro b r c v _ _ _ _
  rw [show (is_valid b r c v = false) ↔ ¬(is_valid b r c v = true) from
    by simp, is_valid_true_char]
  constructor
  · intro hn
    rcases not_and_or.mp hn with h | h
    · left
      push_neg at h
      exact h
    · rcases not_and_or.mp h with h2 | h2
      · right; left
        push_neg at h2
        exact h2
      · right; right
        push_neg at h2
        exact h2
  · intro h hA
    rcases h with ⟨x, hx, he⟩ | ⟨x, hx, he⟩ | ⟨i, hi, j, hj, he⟩
    · exact hA.1 x hx he
    · exact hA.2.1 x hx he
    · exact hA.2.2 i hi j hj he

/-- Witness for C2: value 5 is rejected at `(0, 2)` of the sample board
because it already occurs in row 0. -/
theorem C2_witness : is_valid mock_extract_sudoku 0 2 5 = false :=
  (C2_validator_characterisation mock_extract_sudoku 0 2 5 (by decide)
    (by decide) (by decide) (by decide)).mpr (Or.inl ⟨0, by decide, by decide⟩)

/-! ### Claim C3: unsatisfiable grids

The claim as stated is false on the code: the solver validates only the
values it places itself and never re-checks existing clues, so a grid whose
clues already conflict (e.g. two identical digits in one row) can still make
`solve_sudoku` return `True`.  The property holds once the input grid is
required to be consistent. -/

/-- A board whose row 0 repeats the digit 1 (and whose first cell is empty):
it has no valid Sudoku completion, yet the solver places a 2 at `(0, 0)` and
returns `True`. -/
def conflictBoard : Grid :=
  [[0, 1, 1, 1, 1, 1, 1, 1, 1],
   [1, 1, 1, 1, 1, 1, 1, 1, 1],
   [1, 1, 1, 1, 1, 1, 1, 1, 1],
   [1, 1, 1, 1, 1, 1, 1, 1, 1],
   [1, 1, 1, 1, 1, 1, 1, 1, 1],
   [1, 1, 1, 1, 1, 1, 1, 1, 1],
   [1, 1, 1, 1, 1, 1, 1, 1, 1],
   [1, 1, 1, 1, 1, 1, 1, 1, 1],
   [1, 1, 1, 1, 1, 1, 1, 1, 1]]

/-- Counterexample to C3: `conflictBoard` contains two identical digits in
one row, hence admits no valid completion, yet `solve_sudoku` returns
`True`. -/
theorem C3_counterexample :
    (solve_sudoku conflictBoard).1 = true ∧
    ¬ ∃ s, solutionOf conflictBoard s := by
  constructor
  · decide
  · rintro ⟨s, hs⟩
    have e1 : getCell s 0 1 = getCell conflictBoard 0 1 :=
      hs.2 0 (by omega) 1 (by omega) (by decide)
    have e2 : getCell s 0 2 = getCell conflictBoard 0 2 :=
      hs.2 0 (by omega) 2 (by omega) (by decide)
    have hc := hs.1.2.2 0 (by omega) 1 (by omega) 0 (by omega) 2 (by omega)
      (by decide) (Or.inl rfl) (by rw [e1]; decide)
    exact hc (by rw [e1, e2]; decide)

/-- C3 (amended): for every well-formed, *consistent* grid with cell values
in `[0, 9]` that has no valid completion, `solve_sudoku` returns `False` (a
normal negative result); no particular final state is required. -/
theorem C3_amended_unsat_returns_false :
    ∀ b : Grid, WF b → consistentGrid b → boundedVals b →
      (¬ ∃ s, solutionOf b s) → (solve_sudoku b).1 = false := by
  intro b hwf hcons hbnd hno
  cases hres : (solve_sudoku b).1 with
  | false => rfl
  | true =>
    exfalso
    have he := solve_sudoku_eq_solveF hwf
    have hpair : solve_sudoku b = (true, (solve_sudoku b).2) :=
      Prod.ext hres rfl
    rw [hpair] at he
    obtain ⟨hsolved, hext⟩ := solveF_sound b _ he hwf hcons hbnd
    exact hno ⟨(solve_sudoku b).2, hsolved, hext⟩

/-- A consistent board with no completion: row 8 holds 1..8 with its last
cell empty, and the 9 at `(0, 8)` blocks the only value that could finish
row 8. -/
def unsatBoard : Grid :=
  [[0, 0, 0, 0, 0, 0, 0, 0, 9],
   [0, 0, 0, 0, 0, 0, 0, 0, 0],
   [0, 0, 0, 0, 0, 0, 0, 0, 0],
   [0, 0, 0, 0, 0, 0, 0, 0, 0],
   [0, 0, 0, 0, 0, 0, 0, 0, 0],
   [0, 0, 0, 0, 0, 0, 0, 0, 0],
   [0, 0, 0, 0, 0, 0, 0, 0, 0],
   [0, 0, 0, 0, 0, 0, 0, 0, 0],
   [1, 2, 3, 4, 5, 6, 7, 8, 0]]

/-- Witness for the amended C3 at the concrete consistent board. -/
theorem C3_amended_witness : (solve_sudoku unsatBoard).1 = false := by
  apply C3_amended_unsat_returns_false unsatBoard (by decide) (by decide)
    (by decide)
  rintro ⟨s, hs⟩
  have hnzrow : ∀ c' < 8, getCell unsatBoard 8 c' ≠ 0 := by decide
  have hvrow : ∀ c' < 8, getCell unsatBoard 8 c' = c' + 1 := by decide
  have hrow : ∀ c' < 8, getCell s 8 c' = c' + 1 := fun c' hc' => by
    rw [hs.2 8 (by omega) c' (by omega) (hnzrow c' hc'), hvrow c' hc']
  have hv := hs.1.2.1 8 (by omega) 8 (by omega)
  have hne : ∀ c' < 8, getCell s 8 8 ≠ getCell s 8 c' := fun c' hc' =>
    hs.1.2.2 8 (by omega) 8 (by omega) 8 (by omega) c' (by omega)
      (fun e => by
        have := congrArg Prod.snd e
        simp at this
        omega)
      (Or.inl rfl) (by omega)
  have hx : ∀ c' < 8, getCell s 8 8 ≠ c' + 1 := fun c' hc' => by
    have h := hne c' hc'
    rw [hrow c' hc'] at h
    exact h
  have h9 : getCell s 8 8 = 9 := by
    have h0 := hx 0 (by omega)
    have h1 := hx 1 (by omega)
    have h2 := hx 2 (by omega)
    have h3 := hx 3 (by omega)
    have h4 := hx 4 (by omega)
    have h5 := hx 5 (by omega)
    have h6 := hx 6 (by omega)
    have h7 := hx 7 (by omega)
    omega
  have e08 : getCell s 0 8 = 9 := by
    rw [hs.2 0 (by omega) 8 (by omega) (by decide)]
    decide
  have hcol := hs.1.2.2 8 (by omega) 8 (by omega) 0 (by omega) 8 (by omega)
    (fun e => by
      have := congrArg Prod.fst e
      simp at this)
    (Or.inr (Or.inl rfl)) (by omega)
  exact hcol (by rw [h9, e08])

/-! ### Claim C4: the hint engine

`hintGood b r c v` is the property the hint loop tests for value `v` at the
first empty cell `(r, c)`: the placement is valid, and the solver completes
a scratch copy seeded from it. -/

def hintGood (b : Grid) (r c v : Nat) : Prop :=
  is_valid b r c v = true ∧ (solve_sudoku (setCell b r c v)).1 = true

theorem hintNums_nil {b : Grid} {r c : Nat} :
    hintNums b r c [] = (none, b) := rfl

theorem hintNums_cons_invalid {b : Grid} {r c num : Nat} {rest : List Nat}
    (hv : is_valid b r c num = false) :
    hintNums b r c (num :: rest) = hintNums b r c rest := by
  simp [hintNums, hv]

theorem hintNums_cons_good {b : Grid} {r c num : Nat} {rest : List Nat}
    (hv : is_valid b r c num = true)
    (hsolve : (solve_sudoku (setCell b r c num)).1 = true) :
    hintNums b r c (num :: rest) = (some (r, c, num), setCell b r c num) := by
  simp [hintNums, hv, hsolve]

theorem hintNums_cons_bad {b : Grid} {r c num : Nat} {rest : List Nat}
    (h0 : getCell b r c = 0) (hv : is_valid b r c num = true)
    (hsolve : (solve_sudoku (setCell b r c num)).1 = false) :
    hintNums b r c (num :: rest) = hintNums b r c rest := by
  simp [hintNums, hv, hsolve, setCell_restore num h0]

theorem hintNums_skip {b : Grid} {r c num : Nat} {rest : List Nat}
    (h0 : getCell b r c = 0) (hg : ¬ hintGood b r c num) :
    hintNums b r c (num :: rest) = hintNums b r c rest := by
  by_cases hv : is_valid b r c num
  · have hsf : (solve_sudoku (setCell b r c num)).1 = false := by
      cases hb : (solve_sudoku (setCell b r c num)).1 with
      | true => exact absurd ⟨hv, hb⟩ hg
      | false => rfl
    exact hintNums_cons_bad h0 hv hsf
  · exact hintNums_cons_invalid (by simpa using hv)

theorem hintNums_range'_char {b : Grid} {r c : Nat} (h0 : getCell b r c = 0) :
    ∀ (n a : Nat), a + n = 10 → 1 ≤ a →
    ∀ t, ((hintNums b r c (List.range' a n)).1 = some t ↔
      ∃ v, t = (r, c, v) ∧ a ≤ v ∧ v ≤ 9 ∧ hintGood b r c v ∧
        ∀ w, a ≤ w → w < v → ¬ hintGood b r c w) := by
  intro n
  induction n with
  | zero =>
    intro a ha h1 t
    simp only [List.range'_zero, hintNums_nil]
    constructor
    · intro h
      exact absurd h (by simp)
    · rintro ⟨v, -, hav, hv9, -, -⟩
      omega
  | succ m ih =>
    intro a ha h1 t
    rw [List.range'_succ]
    by_cases hg : hintGood b r c a
    · rw [hintNums_cons_good hg.1 hg.2]
      constructor
      · intro h
        simp only at h
        injection h with h
        exact ⟨a, h.symm, Nat.le_refl a, by omega, hg, fun w hw hwa => by omega⟩
      · rintro ⟨v, ht, hav, hv9, hgood, hmin⟩
        have hva : v = a := by
          by_contra hne
          exact hmin a (Nat.le_refl a) (by omega) hg
        rw [ht, hva]
    · rw [hintNums_skip h0 hg, ih (a + 1) (by omega) (by omega) t]
      constructor
      · rintro ⟨v, ht, hav, hv9, hgood, hmin⟩
        refine ⟨v, ht, by omega, hv9, hgood, ?_⟩
        intro w hw hwv
        by_cases hwa : w = a
        · rw [hwa]
          exact hg
        · exact hmin w (by omega) hwv
      · rintro ⟨v, ht, hav, hv9, hgood, hmin⟩
        have hva : v ≠ a := fun e => hg (e ▸ hgood)
        exact ⟨v, ht, by omega, hv9, hgood,
          fun w hw hwv => hmin w (by omega) hwv⟩

theorem hintNums_none_char {b : Grid} {r c : Nat} (h0 : getCell b r c = 0) :
    ∀ nums, ((hintNums b r c nums).1 = none ↔
      ∀ w ∈ nums, ¬ hintGood b r c w) := by
  intro nums
  induction nums with
  | nil => simp [hintNums_nil]
  | cons num rest ihn =>
    by_cases hg : hintGood b r c num
    · rw [hintNums_cons_good hg.1 hg.2]
      constructor
      · intro h
        simp at h
      · intro hall
        exact absurd hg (hall num (List.mem_cons_self _ _))
    · rw [hintNums_skip h0 hg, ihn]
      constructor
      · intro hall w hw
        rcases List.mem_cons.mp hw with rfl | hw'
        · exact hg
        · exact hall w hw'
      · intro hall w hw
        exact hall w (List.mem_cons_of_mem _ hw)

theorem get_hint_none_branch {b : Grid} (hfe : find_empty b = none) :
    get_hint b = (none, b) := by
  simp [get_hint, hfe]

theorem get_hint_some_branch {b : Grid} {r c : Nat}
    (hfe : find_empty b = some (r, c)) :
    get_hint b = hintNums b r c [1, 2, 3, 4, 5, 6, 7, 8, 9] := by
  simp [get_hint, hfe]

/-- A valid-but-wrong digit at `(0, 2)` of the sample board leads to an
unsolvable scratch board: by uniqueness every completion would have to be
`solvedSample`, which has 4 there. -/
theorem mock_wrong_digit {v : Nat} (hv9 : v ≤ 9) (hne : v ≠ 4)
    (hval : is_valid mock_extract_sudoku 0 2 v = true) :
    (solve_sudoku (setCell mock_extract_sudoku 0 2 v)).1 = false := by
  have hwfB : WF (setCell mock_extract_sudoku 0 2 v) :=
    WF_setCell _ _ _ (by decide)
  cases hres : (solve_sudoku (setCell mock_extract_sudoku 0 2 v)).1 with
  | false => rfl
  | true =>
    exfalso
    have hv0 : v ≠ 0 := fun e => by
      rw [e] at hval
      exact absurd hval (by decide)
    have he := solve_sudoku_eq_solveF hwfB
    have hpair : solve_sudoku (setCell mock_extract_sudoku 0 2 v) =
        (true, (solve_sudoku (setCell mock_extract_sudoku 0 2 v)).2) :=
      Prod.ext hres rfl
    rw [hpair] at he
    have hcons : consistentGrid (setCell mock_extract_sudoku 0 2 v) :=
      consistent_setCell (by decide) (by decide) (by omega) (by omega)
        (by decide) hval
    have hbnd : boundedVals (setCell mock_extract_sudoku 0 2 v) :=
      boundedVals_setCell (by decide) (by omega) (by omega) hv9 (by decide)
    obtain ⟨hsolved, hext⟩ := solveF_sound _ _ he hwfB hcons hbnd
    have hsolG : solutionOf mock_extract_sudoku
        (solve_sudoku (setCell mock_extract_sudoku 0 2 v)).2 :=
      ⟨hsolved, extendsTo_trans (extendsTo_setCell_of_zero v (by decide)) hext⟩
    have hgs := mock_unique _ hsolG
    have e1 : getCell (setCell mock_extract_sudoku 0 2 v) 0 2 = v :=
      getCell_setCell_wf v (by decide) (by omega) (by omega)
    have e2 : getCell (solve_sudoku (setCell mock_extract_sudoku 0 2 v)).2 0 2
        = getCell (setCell mock_extract_sudoku 0 2 v) 0 2 :=
      hext 0 (by omega) 2 (by omega) (by rw [e1]; exact hv0)
    rw [hgs] at e2
    have : v = 4 := by
      rw [← e1, ← e2]
      decide
    exact hne this

/-- C4: `get_hint` returns a hint exactly when the grid has an empty cell
and some value placed at the first empty cell (row-major order) leads to a
completion; the hint is that cell together with the smallest value in 1..9
that is valid there and from which `solve_sudoku` completes a scratch copy;
on a full grid, or when no value leads to a completion, it returns none.  On
the spec's sample board the first hint is cell `(0, 2)` with value 4. -/
theorem C4_hint_engine_spec :
    (∀ b : Grid,
      (∀ r c v, (get_hint b).1 = some (r, c, v) →
        find_empty b = some (r, c) ∧ 1 ≤ v ∧ v ≤ 9 ∧ hintGood b r c v ∧
          ∀ w, 1 ≤ w → w < v → ¬ hintGood b r c w) ∧
      (∀ r c v, find_empty b = some (r, c) → 1 ≤ v → v ≤ 9 →
        hintGood b r c v → (∀ w, 1 ≤ w → w < v → ¬ hintGood b r c w) →
        (get_hint b).1 = some (r, c, v)) ∧
      ((get_hint b).1 = none ↔ (find_empty b = none ∨
        ∃ r c, find_empty b = some (r, c) ∧
          ∀ w, 1 ≤ w → w ≤ 9 → ¬ hintGood b r c w)) ∧
      (∀ r c, find_empty b = some (r, c) → getCell b r c = 0 ∧
        ∀ r' c', r' < 9 → c' < 9 → 9 * r' + c' < 9 * r + c →
          getCell b r' c' ≠ 0) ∧
      (find_empty b = none ↔ ∀ r < 9, ∀ c < 9, getCell b r c ≠ 0)) ∧
    (get_hint mock_extract_sudoku).1 = some (0, 2, 4) := by
  have hlist : ([1, 2, 3, 4, 5, 6, 7, 8, 9] : List Nat) = List.range' 1 9 :=
    by decide
  have hmem9 : ∀ w : Nat, w ∈ ([1, 2, 3, 4, 5, 6, 7, 8, 9] : List Nat) ↔
      (1 ≤ w ∧ w ≤ 9) := by
    intro w
    simp
    omega
  have hmain : ∀ b : Grid,
      (∀ r c v, (get_hint b).1 = some (r, c, v) →
        find_empty b = some (r, c) ∧ 1 ≤ v ∧ v ≤ 9 ∧ hintGood b r c v ∧
          ∀ w, 1 ≤ w → w < v → ¬ hintGood b r c w) ∧
      (∀ r c v, find_empty b = some (r, c) → 1 ≤ v → v ≤ 9 →
        hintGood b r c v → (∀ w, 1 ≤ w → w < v → ¬ hintGood b r c w) →
        (get_hint b).1 = some (r, c, v)) ∧
      ((get_hint b).1 = none ↔ (find_empty b = none ∨
        ∃ r c, find_empty b = some (r, c) ∧
          ∀ w, 1 ≤ w → w ≤ 9 → ¬ hintGood b r c w)) ∧
      (∀ r c, find_empty b = some (r, c) → getCell b r c = 0 ∧
        ∀ r' c', r' < 9 → c' < 9 → 9 * r' + c' < 9 * r + c →
          getCell b r' c' ≠ 0) ∧
      (find_empty b = none ↔ ∀ r < 9, ∀ c < 9, getCell b r c ≠ 0) := by
    intro b
    refine ⟨?_, ?_, ?_, ?_, find_empty_eq_none⟩
    · intro r c v h
      cases hfe : find_empty b with
      | none =>
        rw [get_hint_none_branch hfe] at h
        exact absurd h (by simp)
      | some rc =>
        obtain ⟨r0, c0⟩ := rc
        have h0 := (find_empty_eq_some hfe).2.2
        rw [get_hint_some_branch hfe, hlist] at h
        obtain ⟨v0, ht, hav, hv9, hgood, hmin⟩ :=
          (hintNums_range'_char h0 9 1 (by omega) (by omega) _).mp h
        obtain ⟨e1, e23⟩ := Prod.mk.injEq .. ▸ ht
        obtain ⟨e2, e3⟩ := Prod.mk.injEq .. ▸ e23
        subst e1; subst e2; subst e3
        exact ⟨rfl, hav, hv9, hgood, hmin⟩
    · intro r c v hfe h1 h9 hgood hmin
      have h0 := (find_empty_eq_some hfe).2.2
      rw [get_hint_some_branch hfe, hlist]
      exact (hintNums_range'_char h0 9 1 (by omega) (by omega) _).mpr
        ⟨v, rfl, h1, h9, hgood, hmin⟩
    · cases hfe : find_empty b with
      | none =>
        rw [get_hint_none_branch hfe]
        simp
      | some rc =>
        obtain ⟨r0, c0⟩ := rc
        have h0 := (find_empty_eq_some hfe).2.2
        rw [get_hint_some_branch hfe, hlist,
          hintNums_none_char h0 (List.range' 1 9)]
        constructor
        · intro hall
          right
          refine ⟨r0, c0, rfl, ?_⟩
          intro w hw1 hw9
          have hw : w ∈ List.range' 1 9 := by
            rw [← hlist]
            exact (hmem9 w).mpr ⟨hw1, hw9⟩
          exact hall w hw
        · rintro (h | ⟨r1, c1, he, hall⟩)
          · exact absurd h (by simp)
          · injection he with he'
            obtain ⟨e1, e2⟩ := Prod.mk.injEq .. ▸ he'
            subst e1; subst e2
            intro w hw
            have hwb := (hmem9 w).mp (by rw [hlist]; exact hw)
            exact hall w hwb.1 hwb.2
    · intro r c hfe
      exact ⟨(find_empty_eq_some hfe).2.2, find_empty_first hfe⟩
  refine ⟨hmain, ?_⟩
  apply (hmain mock_extract_sudoku).2.1 0 2 4 (by decide) (by omega) (by omega)
  · constructor
    · decide
    · exact (solve_sudoku_complete (WF_setCell _ _ _ (by decide))
        (show solutionOf (setCell mock_extract_sudoku 0 2 4) solvedSample
          from by decide)).1
  · intro w h1 hw4
    rintro ⟨hvalw, hsolw⟩
    have hw123 : w = 1 ∨ w = 2 ∨ w = 3 := by omega
    rcases hw123 with rfl | rfl | rfl
    · rw [mock_wrong_digit (by omega) (by omega) hvalw] at hsolw
      exact Bool.noConfusion hsolw
    · rw [mock_wrong_digit (by omega) (by omega) hvalw] at hsolw
      exact Bool.noConfusion hsolw
    · exact absurd hvalw (by decide)

/-- Witness for C4 at a concrete one-empty-cell board: the hint targets that
cell with its unique admissible value. -/
theorem C4_witness :
    (get_hint (setCell solvedSample 8 8 0)).1 = some (8, 8, 9) := by
  apply (C4_hint_engine_spec.1 (setCell solvedSample 8 8 0)).2.1 8 8 9
    (by decide) (by omega) (by omega)
  · constructor
    · decide
    · decide
  · intro w h1 hw9
    rintro ⟨hvalw, -⟩
    have hfalse : ∀ w' < 9, 1 ≤ w' →
        is_valid (setCell solvedSample 8 8 0) 8 8 w' = false := by decide
    rw [hfalse w (by omega) (by omega)] at hvalw
    exact Bool.noConfusion hvalw

/-! ### Claim C6: the structural strategy's plausibility gate

`extract_sudoku_with_tesseract` (`app.py` lines 139–166) assembles a board
from 81 per-cell recognitions and then validates it; the image-processing
steps live in external libraries, so the embedding models the decision made
on the assembled board: the digit count of lines 156–160. -/

/-- `sum(1 for row in board for digit in row if digit > 0)` (line 157). -/
def digit_count (board : Grid) : Nat :=
  (board.map fun row => (row.filter fun d => 0 < d).length).sum

/-- The plausibility gate of lines 156–162: reject the recognised board
entirely when it carries fewer than 17 digits, otherwise return it. -/
def tesseract_gate (board : Grid) : Option Grid :=
  if digit_count board < 17 then none else some board

/-- C6: the structural strategy rejects every recognition result with fewer
than 17 non-zero cells, whatever those cells are, and passes every result
with at least 17. -/
theorem C6_plausibility_gate :
    ∀ board : Grid,
      (digit_count board < 17 → tesseract_gate board = none) ∧
      (17 ≤ digit_count board → tesseract_gate board = some board) := by
  intro board
  constructor
  · intro h
    unfold tesseract_gate
    rw [if_pos h]
  · intro h
    unfold tesseract_gate
    rw [if_neg (by omega)]

/-- Witness for C6: a 9-clue board is rejected, the 30-clue sample passes. -/
theorem C6_witness :
    tesseract_gate unsatBoard = none ∧
    tesseract_gate mock_extract_sudoku = some mock_extract_sudoku :=
  ⟨(C6_plausibility_gate unsatBoard).1 (by decide),
   (C6_plausibility_gate mock_extract_sudoku).2 (by decide)⟩

/-! ### Claim C7: parsing the vision-model reply

`extract_sudoku_with_gemini` (`app.py` lines 205–236) searches the reply
text with the regex `\[\[.*?\]\]` (DOTALL) — leftmost start, shortest
extension up to the first `]]` — and passes the matched text to `eval`,
returning whatever value results, with no shape validation; if the regex
does not match (or `eval` raises, caught by the handler) it returns `None`.
`eval` is modelled on nested list literals of decimal naturals with
arbitrary whitespace (spaces, tabs, newlines) between tokens, including
Python's empty rows and trailing commas, and rejecting leading-zero number
literals exactly as Python 3 does.  This fragment covers the list-of-lists
values `eval` produces from a regex match in practice; matched text outside
it — negative numbers, underscore digit separators, or non-literal
expressions, for which `eval` may return other values or execute code — is
outside the scope of this model and mapped to `none`. -/

def hasPrefixChars : List Char → List Char → Bool
  | [], _ => true
  | _ :: _, [] => false
  | p :: ps, c :: cs => p == c && hasPrefixChars ps cs

def findPat (pat : List Char) : List Char → Option Nat
  | [] => none
  | c :: cs =>
    if hasPrefixChars pat (c :: cs) then some 0
    else (findPat pat cs).map (· + 1)

/-- `re.search(r'\[\[.*?\]\]', text, re.DOTALL)` of line 223–224. -/
def regexMatrixMatch (s : List Char) : Option (List Char) :=
  match findPat ['[', '['] s with
  | none => none
  | some i =>
    match findPat [']', ']'] (s.drop (i + 2)) with
    | none => none
    | some j => some ((s.drop i).take (j + 4))

def takeDigits : List Char → List Char × List Char
  | [] => ([], [])
  | c :: cs =>
    if c.isDigit then
      let p := takeDigits cs
      (c :: p.1, p.2)
    else ([], c :: cs)

def digitsVal (l : List Char) : Nat :=
  l.foldl (fun acc c => 10 * acc + (c.toNat - 48)) 0

/-- Drop leading whitespace, as Python's tokenizer does between tokens. -/
def skipWs : List Char → List Char
  | [] => []
  | c :: cs => if c.isWhitespace then skipWs cs else c :: cs

/-- One row `... ]` of the literal: numbers separated by commas, whitespace
allowed around every token, an optional trailing comma, possibly no numbers
at all (Python's `[]`), leading-zero numerals rejected as Python 3 does. -/
def parseRowAux : Nat → List Char → List Nat → Option (List Nat × List Char)
  | 0, _, _ => none
  | fuel + 1, s, acc =>
    match skipWs s with
    | ']' :: rest => some (acc, rest)
    | s1 =>
      let p := takeDigits s1
      if p.1 = [] then none
      else if 1 < p.1.length ∧ p.1.headD '0' = '0' then none
      else
        match skipWs p.2 with
        | ',' :: rest2 => parseRowAux fuel rest2 (acc ++ [digitsVal p.1])
        | ']' :: rest2 => some (acc ++ [digitsVal p.1], rest2)
        | _ => none

def parseMatrixAux : Nat → List Char → List (List Nat) →
    Option (List (List Nat) × List Char)
  | 0, _, _ => none
  | fuel + 1, s, acc =>
    match skipWs s with
    | ']' :: rest => some (acc, rest)
    | '[' :: rest =>
      match parseRowAux (rest.length + 1) rest [] with
      | none => none
      | some (row, rest2) =>
        match skipWs rest2 with
        | ',' :: rest3 => parseMatrixAux fuel rest3 (acc ++ [row])
        | ']' :: rest3 => some (acc ++ [row], rest3)
        | _ => none
    | _ => none

/-- `eval` of line 229 on the matched text, modelled as described above. -/
def pyEvalIntMatrix (s : List Char) : Option Grid :=
  match skipWs s with
  | '[' :: rest =>
    match parseMatrixAux (rest.length + 1) rest [] with
    | none => none
    | some (m, rest2) => if skipWs rest2 = [] then some m else none
  | _ => none

/-- `extract_sudoku_with_gemini` after the backend reply, as a function of
the reply text (lines 222–233). -/
def extract_sudoku_with_gemini (response_text : List Char) : Option Grid :=
  match regexMatrixMatch response_text with
  | none => none
  | some m => pyEvalIntMatrix m

/-- A found pattern occurrence really is one: `findPat pat s = some i`
means `pat` is a prefix of `s` from position `i` on. -/
theorem findPat_some_prefix (pat : List Char) :
    ∀ (s : List Char) (i : Nat), findPat pat s = some i →
      hasPrefixChars pat (s.drop i) = true := by
  intro s
  induction s with
  | nil => intro i h; simp [findPat] at h
  | cons c cs ih =>
    intro i h
    simp only [findPat] at h
    by_cases hp : hasPrefixChars pat (c :: cs) = true
    · rw [if_pos hp] at h
      injection h with h
      subst h
      rw [List.drop_zero]
      exact hp
    · rw [if_neg hp] at h
      cases hf : findPat pat cs with
      | none =>
        rw [hf] at h
        simp at h
      | some i0 =>
        rw [hf] at h
        simp only [Option.map_some'] at h
        injection h with h
        subst h
        exact ih i0 hf

/-- C7 (amended): a reply that contains no bracketed `[[...]]` segment — no
occurrence of `[[` followed (two or more positions later) by `]]` — yields
`none` (a failure, not a crash); and whenever a grid is returned, it is
exactly the evaluation of the regex-matched text, with no 9-row
well-formedness check. -/
theorem C7_gemini_parse_amended :
    (∀ t : List Char,
      (¬ ∃ i j, hasPrefixChars ['[', '['] (t.drop i) = true ∧
          hasPrefixChars [']', ']'] (t.drop (i + 2 + j)) = true) →
      extract_sudoku_with_gemini t = none) ∧
    (∀ (t : List Char) (g : Grid), extract_sudoku_with_gemini t = some g →
      ∃ m, regexMatrixMatch t = some m ∧ pyEvalIntMatrix m = some g) := by
  constructor
  · intro t h
    have hreg : regexMatrixMatch t = none := by
      unfold regexMatrixMatch
      cases h1 : findPat ['[', '['] t with
      | none => rfl
      | some i =>
        have hgoal : (match findPat [']', ']'] (t.drop (i + 2)) with
            | none => none
            | some j => some ((t.drop i).take (j + 4))) = none := by
          cases h2 : findPat [']', ']'] (t.drop (i + 2)) with
          | none => rfl
          | some j =>
            exfalso
            apply h
            refine ⟨i, j, findPat_some_prefix _ _ _ h1, ?_⟩
            have hp := findPat_some_prefix _ _ _ h2
            rwa [List.drop_drop] at hp
        exact hgoal
    unfold extract_sudoku_with_gemini
    rw [hreg]
  · intro t g h
    unfold extract_sudoku_with_gemini at h
    cases hm : regexMatrixMatch t with
    | none =>
      rw [hm] at h
      exact absurd h (by simp)
    | some m =>
      rw [hm] at h
      exact ⟨m, rfl, h⟩

/-- Witness for the amended C7: a reply that contains `[[` but no closing
`]]`, hence no bracketed matrix segment. -/
theorem C7_amended_witness :
    extract_sudoku_with_gemini "[[x".toList = none := by
  apply C7_gemini_parse_amended.1
  rintro ⟨i, j, -, h2⟩
  have hp : ∀ p, 2 ≤ p →
      hasPrefixChars [']', ']'] ("[[x".toList.drop p) = false := by
    intro p hpge
    rcases Nat.lt_or_ge p 3 with hlt | hge
    · have he : p = 2 := by omega
      subst he
      decide
    · rw [List.drop_eq_nil_of_le (by
        rw [show ("[[x".toList).length = 3 from by decide]
        omega)]
      rfl
  rw [hp (i + 2 + j) (by omega)] at h2
  exact Bool.noConfusion h2

/-- Counterexample to C7 as stated: the reply `[[1,2],[3]]` contains no
well-formed 9-row matrix, yet the strategy accepts it and returns the
malformed grid unchanged. -/
theorem C7_counterexample :
    extract_sudoku_with_gemini "[[1,2],[3]]".toList = some [[1, 2], [3]] ∧
    ([[1, 2], [3]] : Grid).length ≠ 9 := by
  constructor
  · decide
  · decide

example : extract_sudoku_with_gemini "[[1, 2],[3,4]]".toList =
    some [[1, 2], [3, 4]] := by decide

example : extract_sudoku_with_gemini "[[ 10,  0],\n[3]]".toList =
    some [[10, 0], [3]] := by decide

example : extract_sudoku_with_gemini "[[1,2".toList = none := by decide

example : pyEvalIntMatrix "[[07]]".toList = none := by decide

example : pyEvalIntMatrix "[[1,],[]]".toList = some [[1], []] := by decide

/-! ### Claim C8: the orchestrator always produces a grid

`extract_sudoku_from_image` (`app.py` lines 169–202) runs inside one big
`try`: base64/image decoding may raise (caught, falling through to the
mock); each strategy catches its own exceptions internally and returns
`None` on failure; the surrounding availability flags and the API key gate
which strategies run.  The embedding abstracts those external outcomes into
an environment record and reproduces the source's branch structure,
including the Python truthiness test `if board:`. -/

structure ExtractEnv where
  decode_ok : Bool
  tesseract_available : Bool
  tesseract_result : Option Grid
  gemini_available : Bool
  api_key_present : Bool
  gemini_result : Option Grid

/-- Python truthiness of an optional board (`if board:`). -/
def truthy : Option Grid → Bool
  | none => false
  | some g => !g.isEmpty

def extract_sudoku_from_image (env : ExtractEnv) : Grid :=
  if env.decode_ok = false then mock_extract_sudoku
  else if env.tesseract_available && truthy env.tesseract_result then
    env.tesseract_result.getD []
  else if env.gemini_available && env.api_key_present &&
      truthy env.gemini_result then
    env.gemini_result.getD []
  else
    mock_extract_sudoku

/-- C8: the orchestrator always returns a grid from one of the three
sources; when both recognition strategies are unavailable or fail — and
also when decoding the image raises — the hard-coded sample puzzle is
returned, and no exception reaches the caller. -/
theorem C8_orchestrator_fallback :
    ∀ env : ExtractEnv,
      ((env.tesseract_available = false ∨ truthy env.tesseract_result = false)
        → (env.gemini_available = false ∨ env.api_key_present = false ∨
            truthy env.gemini_result = false) →
        extract_sudoku_from_image env = mock_extract_sudoku) ∧
      (env.decode_ok = false →
        extract_sudoku_from_image env = mock_extract_sudoku) ∧
      (extract_sudoku_from_image env = mock_extract_sudoku ∨
       env.tesseract_result = some (extract_sudoku_from_image env) ∨
       env.gemini_result = some (extract_sudoku_from_image env)) := by
  intro env
  unfold extract_sudoku_from_image
  by_cases hd : env.decode_ok = false
  · rw [if_pos hd]
    exact ⟨fun _ _ => rfl, fun _ => rfl, Or.inl rfl⟩
  · rw [if_neg hd]
    by_cases ht : env.tesseract_available && truthy env.tesseract_result
    · rw [if_pos ht]
      refine ⟨?_, fun hdec => absurd hdec hd, ?_⟩
      · rintro (h | h) _
        · rw [h] at ht
          simp at ht
        · rw [h] at ht
          simp at ht
      · right; left
        have h2 := ((Bool.and_eq_true _ _).mp ht).2
        cases hres : env.tesseract_result with
        | none =>
          rw [hres] at h2
          simp [truthy] at h2
        | some g => rfl
    · rw [if_neg ht]
      by_cases hg : env.gemini_available && env.api_key_present &&
          truthy env.gemini_result
      · rw [if_pos hg]
        refine ⟨?_, fun hdec => absurd hdec hd, ?_⟩
        · rintro _ (h | h | h)
          · rw [h] at hg
            simp at hg
          · rw [h] at hg
            simp at hg
          · rw [h] at hg
            simp at hg
        · right; right
          have h3 := ((Bool.and_eq_true _ _).mp hg).2
          cases hres : env.gemini_result with
          | none =>
            rw [hres] at h3
            simp [truthy] at h3
          | some g => rfl
      · rw [if_neg hg]
        exact ⟨fun _ _ => rfl, fun hdec => absurd hdec hd, Or.inl rfl⟩

/-- Witness for C8: both strategies unavailable results, mock returned. -/
theorem C8_witness :
    extract_sudoku_from_image ⟨true, true, none, true, true, none⟩ =
      mock_extract_sudoku :=
  (C8_orchestrator_fallback ⟨true, true, none, true, true, none⟩).1
    (Or.inr rfl) (Or.inr (Or.inr rfl))
